import Mathlib

/-!
Verification of the nixrs lexer (`src/parse.rs`).

Shallow embedding of the lexer in `src/parse.rs`. The source is a partial
lexer for a Nix-like language: only decimal integer literals are lexed
(`Lexer::lex_int`); every other codepoint hits `panic!("unhandled char: {}", c)`
in `Lexer::next`, and an out-of-range digit run hits the
`digits.parse::<i64>().unwrap()` panic inside `lex_int`.

Modelling conventions:
* `Symbol` (an interned string handle from the external `symbol_table`
  collaborator) is modelled as `String`; `EvalContext::intern` is the identity.
  The interning contract (same text, same handle) makes this faithful.
* Rust `char` iteration (`std::str::Chars`) is modelled as a `List Char`;
  `usize` positions as `Nat`.
* A Rust `panic!` is modelled as an explicit `PanicReason` outcome, so the
  abort behaviour of the lexing pass is observable in the model.
* `i64` values are modelled as `Int`; `str::parse::<i64>` on a string of
  decimal digits succeeds exactly when the denoted magnitude is at most
  `i64::MAX = 2^63 - 1` (the digit runs taken by `lex_int` are never
  negative, so the lower bound cannot be hit).
-/

namespace Nixrs

/-- Interned string handle (external `symbol_table::Symbol`), modelled as the
string itself. -/
abbrev Symbol := String

/-- Rust `i64` payload type (overflow is checked at parse time, so the
mathematical integers suffice). -/
abbrev I64 := Int

/-- Rust `f64` payload type of `TokenKind::Float`. The present code never
constructs a `Float` token, so no floating-point reasoning is needed. -/
abbrev F64 := Float

/-- Rust `struct Pos { column: usize, line: usize }`. -/
structure Pos where
  column : Nat
  line : Nat
deriving Repr, DecidableEq

/-- Rust `struct Span { filename: Symbol, start: Pos, end: Pos }`. -/
structure Span where
  filename : Symbol
  start : Pos
  «end» : Pos
deriving Repr, DecidableEq

/-- Rust `struct Spanned<T> { val: T, span: Span }`. -/
structure Spanned (T : Type) where
  val : T
  span : Span
deriving Repr

/-- Rust `enum TokenKind` from `src/parse.rs`, all variants. -/
inductive TokenKind where
  | Unknown
  | Id (sym : Symbol)
  | Int (n : I64)
  | Float (f : F64)
  | Path (sym : Symbol)
  | Uri (s : String)
  | StrPart (s : String)
  | IndentStrPart (s : String)
  | Quote
  | IndentQuote
  | DollarBrace
  | Mult
  | Minus
  | Plus
  | Divide
  | Less
  | Greater
  | LessEq
  | GreaterEq
  | Assign
  | Equals
  | NotEquals
  | And
  | Or
  | Implies
  | Not
  | Update
  | Concat
  | At
  | Comma
  | Dot
  | Ellipsis
  | Question
  | Colon
  | Semicolon
  | ParenL
  | ParenR
  | BracketL
  | BracketR
  | BraceL
  | BraceR
deriving Repr

/-- Rust `pub type Token = Spanned<TokenKind>;`. -/
abbrev Token := Spanned TokenKind

/-- Rust `c.is_digit(10)`: an ASCII decimal digit. -/
def char_is_digit10 (c : Char) : Bool :=
  '0' ≤ c && c ≤ '9'

/-- The position update performed by one `CharsPos::next` call that consumed
`c`: a newline resets column to 1 and increments line, any other codepoint
increments column. -/
def stepPos (p : Pos) (c : Char) : Pos :=
  if c = '\n' then { line := p.line + 1, column := 1 }
  else { line := p.line, column := p.column + 1 }

/-- Rust `struct CharsPos` — a char iterator
tracking the current line/column position. -/
structure CharsPos where
  chars : List Char
  pos : Pos
deriving Repr, DecidableEq

/-- Embeds `CharsPos::new`: position starts at line 1, column 1. -/
def CharsPos.new (chars : List Char) : CharsPos :=
  { chars := chars, pos := { line := 1, column := 1 } }

/-- Embeds `CharsPos::as_str`: the remaining text. -/
def CharsPos.as_str (cp : CharsPos) : List Char :=
  cp.chars

/-- Embeds the derived `Clone` of `CharsPos`: an independent copy of the iterator. -/
def CharsPos.clone (cp : CharsPos) : CharsPos :=
  cp

/-- Embeds `impl Iterator for CharsPos`: `next` yields the next char (if any) and
updates the position per `stepPos`. Returned as (item, updated iterator). -/
def CharsPos.next (cp : CharsPos) : Option Char × CharsPos :=
  match cp.chars with
  | [] => (none, cp)
  | c :: rest => (some c, { chars := rest, pos := stepPos cp.pos c })

/-- Helper for `take_while_ref` through `CharsPos::next`: consume the longest
prefix satisfying `f`, threading the position update of each consumed char.
Returns (consumed prefix, remaining chars, final position). -/
def take_while_pos (f : Char → Bool) : List Char → Pos → List Char × List Char × Pos
  | [], p => ([], [], p)
  | c :: rest, p =>
    if f c then
      let r := take_while_pos f rest (stepPos p c)
      (c :: r.1, r.2.1, r.2.2)
    else ([], c :: rest, p)

/-- Embeds `self.chars.take_while_ref(f)` (itertools): consumes the maximal prefix of
the iterator satisfying `f` via repeated `CharsPos::next`, returning the
consumed chars and the mutated iterator. -/
def CharsPos.take_while_ref (cp : CharsPos) (f : Char → Bool) : List Char × CharsPos :=
  let r := take_while_pos f cp.chars cp.pos
  (r.1, { chars := r.2.1, pos := r.2.2 })

/-- The value of a run of decimal digits read left to right. -/
def digits_to_nat (ds : List Char) : Nat :=
  ds.foldl (fun a c => a * 10 + (c.toNat - 48)) 0

/-- Rust `i64::MAX`. -/
def i64_max : Nat := 9223372036854775807

/-- Embeds `digits.parse::<i64>()` for a string of decimal digits: fails on the empty
string and on magnitude overflow past `i64::MAX`, otherwise yields the value. -/
def parse_i64 (ds : List Char) : Option I64 :=
  if ds.isEmpty then none
  else if digits_to_nat ds ≤ i64_max then some (digits_to_nat ds : Int)
  else none

/-- The distinct `panic!` sites reachable in `src/parse.rs`. -/
inductive PanicReason where
  | unhandled_char (c : Char)
  | int_parse_unwrap
deriving Repr, DecidableEq

/-- Rust `struct Lexer` (the `ectx` field is the interner, modelled away; the
`source` field is only read through `chars.as_str()` and so is subsumed by
`chars`). -/
structure Lexer where
  filename : Symbol
  chars : CharsPos
deriving Repr

/-- Embeds `Lexer::new`: interns the filename (identity in the model) and wraps the
source chars in a fresh `CharsPos`. -/
def Lexer.new (filename : String) (source : String) : Lexer :=
  { filename := filename, chars := CharsPos.new source.toList }

/-- Embeds `Lexer::pos`. -/
def Lexer.pos (lx : Lexer) : Pos :=
  lx.chars.pos

/-- Embeds `Lexer::spanned`. -/
def Lexer.spanned {T : Type} (lx : Lexer) (start stop : Pos) (val : T) : Spanned T :=
  { val := val, span := { filename := lx.filename, start := start, «end» := stop } }

/-- Embeds `Lexer::peek`, that is `self.chars.clone().next()` — reads the next char off a
clone, leaving the lexer untouched. -/
def Lexer.peek (lx : Lexer) : Option Char :=
  (lx.chars.clone.next).1

/-- State-passing rendering of a `peek()` call on a borrowed `&self` lexer:
the returned value comes from advancing a clone of the char iterator, and the
lexer handed back to the caller is the untouched original (`peek` takes
`&self`, so the source cannot mutate it). -/
def Lexer.peek_call (lx : Lexer) : Option Char × Lexer :=
  let cloned := lx.chars.clone
  let step := cloned.next
  (step.1, lx)

/-- Outcome of one `Lexer::next` call: a token plus the mutated lexer,
a panic, or end of input (`None`). -/
inductive LexOut where
  | tok (t : Token) (lx : Lexer)
  | panicked (r : PanicReason)
  | eof
deriving Repr

/-- Embeds `Lexer::lex_int`: record the start position, consume the maximal digit
run, parse it as `i64` (the `.unwrap()` panics on overflow), and emit an
`Int` token spanning the run. -/
def Lexer.lex_int (lx : Lexer) : LexOut :=
  let start := lx.pos
  let r := lx.chars.take_while_ref char_is_digit10
  let digits := r.1
  let lx2 : Lexer := { filename := lx.filename, chars := r.2 }
  match parse_i64 digits with
  | some n => .tok (lx2.spanned start lx2.pos (TokenKind.Int n)) lx2
  | none => .panicked .int_parse_unwrap

/-- Embeds `impl Iterator for Lexer`: `next` dispatches on the peeked char — a digit
starts `lex_int`, any other char panics (`"unhandled char"`), end of input
yields `None`. -/
def Lexer.next (lx : Lexer) : LexOut :=
  match lx.peek with
  | some c => if char_is_digit10 c then lx.lex_int else .panicked (.unhandled_char c)
  | none => .eof

/-- Iteration of `Lexer::next` (the `collect` loop), structurally recursive on
an explicit iteration budget. The budget is a modelling device only: `run`
passes one more than the remaining input length, which the theorems
`run_eof`, `run_panicked` and `run_tok` below prove sufficient (every emitted
token consumes at least one char), so the budget never runs out and the
0-budget branch is unreachable from `run`. -/
def Lexer.runAux : Nat → Lexer → List Token × Option PanicReason
  | 0, _ => ([], none)
  | fuel + 1, lx =>
    match lx.next with
    | .eof => ([], none)
    | .panicked r => ([], some r)
    | .tok t lx' =>
      let r := Lexer.runAux fuel lx'
      (t :: r.1, r.2)

/-- Collecting the lexer iterator to exhaustion: the emitted tokens in order,
paired with the panic that aborted the pass, if any. -/
def Lexer.run (lx : Lexer) : List Token × Option PanicReason :=
  Lexer.runAux (lx.chars.chars.length + 1) lx

/-- Embeds `pub fn lex`: run a fresh lexer over the whole source. -/
def lex (filename source : String) : List Token × Option PanicReason :=
  (Lexer.new filename source).run

/-- Order on positions, lexicographic by (line, column): this is the `<=`
of the spec's position invariant. -/
def posLe (a b : Pos) : Prop :=
  a.line < b.line ∨ (a.line = b.line ∧ a.column ≤ b.column)

instance (a b : Pos) : Decidable (posLe a b) := by
  unfold posLe; infer_instance

/-- Well-formed position: 1-based line and column. -/
def pos_wf (p : Pos) : Prop :=
  1 ≤ p.line ∧ 1 ≤ p.column

instance (p : Pos) : Decidable (pos_wf p) := by
  unfold pos_wf; infer_instance

/-- Big-step relation of the lexing pass: one derivation per way the iterator
loop of `collect` can unfold (end of input, panic, or a token followed by the
rest of the run). Each constructor mirrors one arm of `Lexer::next`'s use in
the loop. -/
inductive LexRun : Lexer → List Token × Option PanicReason → Prop where
  | eof {lx : Lexer} : lx.next = .eof → LexRun lx ([], none)
  | panicked {lx : Lexer} {r : PanicReason} : lx.next = .panicked r → LexRun lx ([], some r)
  | tok {lx : Lexer} {t : Token} {lx' : Lexer} {ts : List Token} {p : Option PanicReason} :
      lx.next = .tok t lx' → LexRun lx' (ts, p) → LexRun lx (t :: ts, p)

/-- A successful `Lexer::next` consumed at least one char (the digit run is
nonempty because the peeked char was a digit). -/
theorem take_while_pos_length (f : Char → Bool) (cs : List Char) (p : Pos) :
    (take_while_pos f cs p).1.length + (take_while_pos f cs p).2.1.length = cs.length := by
  induction cs generalizing p with
  | nil => simp [take_while_pos]
  | cons c rest ih =>
    by_cases h : f c = true
    · simp [take_while_pos, h, Nat.succ_add]
      have := ih (stepPos p c)
      omega
    · simp [take_while_pos, h]

theorem next_tok_consumes {lx : Lexer} {t : Token} {lx' : Lexer}
    (h : lx.next = .tok t lx') : lx'.chars.chars.length < lx.chars.chars.length := by
  unfold Lexer.next Lexer.peek CharsPos.clone CharsPos.next at h
  match hcs : lx.chars.chars with
  | [] => rw [hcs] at h; simp at h
  | c :: rest =>
    rw [hcs] at h
    simp only at h
    by_cases hd : char_is_digit10 c = true
    · rw [if_pos hd] at h
      unfold Lexer.lex_int CharsPos.take_while_ref at h
      rw [hcs] at h
      simp only [take_while_pos, hd, if_pos] at h
      cases hp : parse_i64 (c :: (take_while_pos char_is_digit10 rest (stepPos lx.chars.pos c)).1) with
      | none => rw [hp] at h; simp at h
      | some n =>
        rw [hp] at h
        simp only [LexOut.tok.injEq] at h
        have hlen := take_while_pos_length char_is_digit10 rest (stepPos lx.chars.pos c)
        have : lx'.chars.chars =
            (take_while_pos char_is_digit10 rest (stepPos lx.chars.pos c)).2.1 := by
          rw [← h.2]
        rw [this]
        simp
        omega
    · rw [if_neg hd] at h; simp at h

theorem posLe_refl (a : Pos) : posLe a a := by
  right; exact ⟨rfl, le_refl _⟩

theorem posLe_trans {a b c : Pos} (h1 : posLe a b) (h2 : posLe b c) : posLe a c := by
  rcases h1 with h1 | ⟨h1, h1c⟩ <;> rcases h2 with h2 | ⟨h2, h2c⟩
  · left; omega
  · left; omega
  · left; omega
  · right; constructor <;> omega

theorem posLe_stepPos (p : Pos) (c : Char) : posLe p (stepPos p c) := by
  unfold stepPos
  by_cases h : c = '\n'
  · rw [if_pos h]; left; simp
  · rw [if_neg h]; right; simp

theorem stepPos_wf {p : Pos} (c : Char) (h : pos_wf p) : pos_wf (stepPos p c) := by
  unfold pos_wf at h ⊢
  unfold stepPos
  by_cases hc : c = '\n'
  · rw [if_pos hc]
    refine ⟨?_, ?_⟩ <;> simp <;> omega
  · rw [if_neg hc]
    refine ⟨?_, ?_⟩ <;> simp <;> omega

theorem take_while_pos_posLe (f : Char → Bool) (cs : List Char) (p : Pos) :
    posLe p (take_while_pos f cs p).2.2 := by
  induction cs generalizing p with
  | nil => exact posLe_refl p
  | cons c rest ih =>
    by_cases h : f c = true
    · simp only [take_while_pos, h, if_pos]
      exact posLe_trans (posLe_stepPos p c) (ih (stepPos p c))
    · simp only [take_while_pos, h]
      simp
      exact posLe_refl p

theorem take_while_pos_wf (f : Char → Bool) (cs : List Char) {p : Pos} (hp : pos_wf p) :
    pos_wf (take_while_pos f cs p).2.2 := by
  induction cs generalizing p with
  | nil => exact hp
  | cons c rest ih =>
    by_cases h : f c = true
    · simp only [take_while_pos, h, if_pos]
      exact ih (stepPos_wf c hp)
    · simp only [take_while_pos, h]
      simpa using hp

/-- Specification of a successful `Lexer::next`: the token's span runs from
the pre-call position to the post-call position (in order), the filename is
the lexer's, and position well-formedness is preserved. -/
theorem next_tok_spec {lx : Lexer} {t : Token} {lx' : Lexer}
    (h : lx.next = .tok t lx') :
    t.span.filename = lx.filename ∧
    t.span.start = lx.chars.pos ∧
    t.span.«end» = lx'.chars.pos ∧
    lx'.filename = lx.filename ∧
    posLe lx.chars.pos lx'.chars.pos ∧
    (pos_wf lx.chars.pos → pos_wf lx'.chars.pos) := by
  unfold Lexer.next Lexer.peek CharsPos.clone CharsPos.next at h
  match hcs : lx.chars.chars with
  | [] => rw [hcs] at h; simp at h
  | c :: rest =>
    rw [hcs] at h
    simp only at h
    by_cases hd : char_is_digit10 c = true
    · rw [if_pos hd] at h
      unfold Lexer.lex_int CharsPos.take_while_ref at h
      rw [hcs] at h
      simp only [take_while_pos, hd, if_pos] at h
      cases hp : parse_i64 (c :: (take_while_pos char_is_digit10 rest (stepPos lx.chars.pos c)).1) with
      | none => rw [hp] at h; simp at h
      | some n =>
        rw [hp] at h
        simp only [LexOut.tok.injEq] at h
        obtain ⟨ht, hlx⟩ := h
        have hle : posLe lx.chars.pos
            (take_while_pos char_is_digit10 rest (stepPos lx.chars.pos c)).2.2 :=
          posLe_trans (posLe_stepPos lx.chars.pos c)
            (take_while_pos_posLe char_is_digit10 rest (stepPos lx.chars.pos c))
        have hwf : pos_wf lx.chars.pos →
            pos_wf (take_while_pos char_is_digit10 rest (stepPos lx.chars.pos c)).2.2 :=
          fun hw => take_while_pos_wf char_is_digit10 rest (stepPos_wf c hw)
        subst hlx
        rw [← ht]
        refine ⟨rfl, rfl, rfl, rfl, hle, hwf⟩
    · rw [if_neg hd] at h; simp at h

/-- The iteration budget of `Lexer.runAux` is irrelevant as long as it
exceeds the remaining input length: every iteration either stops or consumes
at least one char. -/
theorem runAux_congr (f1 : Nat) : ∀ (f2 : Nat) (lx : Lexer),
    lx.chars.chars.length < f1 → lx.chars.chars.length < f2 →
    Lexer.runAux f1 lx = Lexer.runAux f2 lx := by
  induction f1 with
  | zero => intro f2 lx h1 _; omega
  | succ n ih =>
    intro f2 lx h1 h2
    match f2, h2 with
    | m + 1, h2 =>
      show Lexer.runAux (n + 1) lx = Lexer.runAux (m + 1) lx
      unfold Lexer.runAux
      cases h : lx.next with
      | eof => simp
      | panicked r => simp
      | tok t lx' =>
        have hc := next_tok_consumes h
        simp only
        rw [ih m lx' (by omega) (by omega)]

/-- Unfolding equation of `Lexer.run` at end of input. -/
theorem run_eof {lx : Lexer} (h : lx.next = .eof) : lx.run = ([], none) := by
  unfold Lexer.run Lexer.runAux
  rw [h]

/-- Unfolding equation of `Lexer.run` at a panic. -/
theorem run_panicked {lx : Lexer} {r : PanicReason} (h : lx.next = .panicked r) :
    lx.run = ([], some r) := by
  unfold Lexer.run Lexer.runAux
  rw [h]

/-- Unfolding equation of `Lexer.run` at an emitted token: the recurrence of
the collect loop. -/
theorem run_tok {lx : Lexer} {t : Token} {lx' : Lexer} (h : lx.next = .tok t lx') :
    lx.run = (t :: (lx'.run).1, (lx'.run).2) := by
  have hc := next_tok_consumes h
  show Lexer.runAux (lx.chars.chars.length + 1) lx = _
  simp only [Lexer.runAux, h]
  rw [runAux_congr lx.chars.chars.length (lx'.chars.chars.length + 1) lx' (by omega) (by omega)]
  rfl

/-- Master invariant of the lexing loop: the emitted token list is no longer
than the remaining input, every token's span starts at or after the current
position and is ordered, spans are well-formed when the current position is,
and consecutive tokens are ordered end-to-start. -/
theorem run_spec (lx : Lexer) :
    (lx.run).1.length ≤ lx.chars.chars.length ∧
    (∀ t ∈ (lx.run).1,
      posLe lx.chars.pos t.span.start ∧
      posLe t.span.start t.span.«end» ∧
      (pos_wf lx.chars.pos → pos_wf t.span.start ∧ pos_wf t.span.«end»)) ∧
    List.Chain' (fun a b => posLe a.span.«end» b.span.start) (lx.run).1 := by
  suffices H : ∀ (n : Nat) (lx : Lexer), lx.chars.chars.length < n →
      (lx.run).1.length ≤ lx.chars.chars.length ∧
      (∀ t ∈ (lx.run).1,
        posLe lx.chars.pos t.span.start ∧
        posLe t.span.start t.span.«end» ∧
        (pos_wf lx.chars.pos → pos_wf t.span.start ∧ pos_wf t.span.«end»)) ∧
      List.Chain' (fun a b => posLe a.span.«end» b.span.start) (lx.run).1 by
    exact H (lx.chars.chars.length + 1) lx (by omega)
  intro n
  induction n with
  | zero => intro lx hn; omega
  | succ n ihn =>
    intro lx hn
    cases h : lx.next with
    | eof =>
      rw [run_eof h]
      simp
    | panicked r =>
      rw [run_panicked h]
      simp
    | tok t lx' =>
      rw [run_tok h]
      have ih := ihn lx' (by have := next_tok_consumes h; omega)
      obtain ⟨hfn, hstart, hend, _, hle, hwf⟩ := next_tok_spec h
      obtain ⟨ihlen, ihmem, ihchain⟩ := ih
      have hcons := next_tok_consumes h
      refine ⟨by simp; omega, ?_, ?_⟩
      · intro u hu
        simp only [List.mem_cons] at hu
        rcases hu with rfl | hu
        · rw [hstart, hend]
          exact ⟨posLe_refl _, hle, fun hw => ⟨hw, hwf hw⟩⟩
        · obtain ⟨h1, h2, h3⟩ := ihmem u hu
          exact ⟨posLe_trans hle h1, h2, fun hw => h3 (hwf hw)⟩
      · apply List.Chain'.cons'
        · exact ihchain
        · intro u hu
          have hmem : u ∈ (lx'.run).1 := List.mem_of_mem_head? hu
          obtain ⟨h1, _, _⟩ := ihmem u hmem
          rw [hend]
          exact h1

/-- The function `Lexer.run` realizes the big-step relation. -/
theorem LexRun_run (lx : Lexer) : LexRun lx lx.run := by
  suffices H : ∀ (n : Nat) (lx : Lexer), lx.chars.chars.length < n → LexRun lx lx.run by
    exact H (lx.chars.chars.length + 1) lx (by omega)
  intro n
  induction n with
  | zero => intro lx hn; omega
  | succ n ihn =>
    intro lx hn
    cases h : lx.next with
    | eof =>
      rw [run_eof h]
      exact LexRun.eof h
    | panicked r =>
      rw [run_panicked h]
      exact LexRun.panicked h
    | tok t lx' =>
      rw [run_tok h]
      have ih := ihn lx' (by have := next_tok_consumes h; omega)
      exact LexRun.tok h (by simpa using ih)

/-- The big-step relation is functional: any two derivations from the same
lexer state produce the same outcome. -/
theorem LexRun_deterministic {lx : Lexer} {o1 o2 : List Token × Option PanicReason}
    (h1 : LexRun lx o1) (h2 : LexRun lx o2) : o1 = o2 := by
  induction h1 generalizing o2 with
  | eof h =>
    cases h2 with
    | eof h' => rfl
    | panicked h' => rw [h] at h'; exact absurd h' (by simp)
    | tok h' _ => rw [h] at h'; exact absurd h' (by simp)
  | panicked h =>
    cases h2 with
    | eof h' => rw [h] at h'; exact absurd h' (by simp)
    | panicked h' => rw [h] at h'; simp_all
    | tok h' _ => rw [h] at h'; exact absurd h' (by simp)
  | tok h hrest ih =>
    cases h2 with
    | eof h' => rw [h] at h'; exact absurd h' (by simp)
    | panicked h' => rw [h] at h'; exact absurd h' (by simp)
    | tok h' hrest' =>
      rw [h] at h'
      simp only [LexOut.tok.injEq] at h'
      obtain ⟨ht, hlx⟩ := h'
      subst hlx
      have := ih hrest'
      simp_all

/-- Characterization of `take_while_pos` when the predicate never accepts a
newline (as with decimal digits): it takes the `List.takeWhile` prefix, leaves
the `List.dropWhile` suffix, and moves the column right by the prefix length. -/
theorem take_while_pos_eq (f : Char → Bool) (hnl : f '\n' = false) (cs : List Char) (p : Pos) :
    take_while_pos f cs p =
      (cs.takeWhile f, cs.dropWhile f,
        { column := p.column + (cs.takeWhile f).length, line := p.line }) := by
  induction cs generalizing p with
  | nil => simp [take_while_pos]
  | cons c rest ih =>
    by_cases h : f c = true
    · have hc : c ≠ '\n' := by
        intro hc
        rw [hc, hnl] at h
        exact absurd h (by simp)
      simp only [take_while_pos, h, if_pos, List.takeWhile_cons, List.dropWhile_cons]
      rw [ih (stepPos p c)]
      have hcol : (stepPos p c).column = p.column + 1 := by simp [stepPos, hc]
      have hline : (stepPos p c).line = p.line := by simp [stepPos, hc]
      rw [hcol, hline]
      have harith : p.column + 1 + (rest.takeWhile f).length
          = p.column + (c :: rest.takeWhile f).length := by
        simp
        omega
      rw [harith]
    · simp only [take_while_pos, h, List.takeWhile_cons, List.dropWhile_cons]
      simp [h]

/-- C1: the claim states that an unrecognized codepoint yields an `Unknown`
token spanning that codepoint and lexing continues; the code instead panics
(`panic!("unhandled char: {}", c)`), emitting no token and aborting the pass.
Evaluation at the failing input "a": the output token list is empty and the
pass ends in the unhandled-char panic. -/
theorem c1_unrecognized_codepoint_panics :
    lex "<test>" "a" = ([], some (PanicReason.unhandled_char 'a')) := rfl

/-- C2: the claim states that a digit run exceeding the `i64` range is
reported as an `IntegerOverflow` lexical error rather than crashing; the code
instead panics in `digits.parse::<i64>().unwrap()` (its own TODO comment
acknowledges the missing diagnosis). Evaluation at the failing input
`9223372036854775808` (that is `2^63`, one past `i64::MAX`): no token, and
the pass ends in the unwrap panic. -/
theorem c2_integer_overflow_panics :
    lex "<test>" "9223372036854775808" = ([], some PanicReason.int_parse_unwrap) := rfl

/-- C3: the claim states that "3.14" lexes to the single token `Float(3.14)`;
the code has no float lexing at all: it emits `Int(3)` spanning 1:1-1:2 and
then panics on the '.' codepoint. -/
theorem c3_float_input_panics :
    lex "<test>" "3.14" =
      ([{ val := TokenKind.Int 3,
          span := { filename := "<test>", start := { column := 1, line := 1 },
                    «end» := { column := 2, line := 1 } } }],
       some (PanicReason.unhandled_char '.')) := rfl

/-- C4: the input "0" lexes (under any filename) to exactly one token,
`Int(0)`, whose span starts at line 1 column 1 and ends at line 1 column 2,
with no panic. -/
theorem c4_zero_single_int_token (f : String) :
    lex f "0" =
      ([{ val := TokenKind.Int 0,
          span := { filename := f, start := { column := 1, line := 1 },
                    «end» := { column := 2, line := 1 } } }], none) := rfl

/-- C5: the empty input lexes (under any filename) to the empty token
sequence, with no panic. -/
theorem c5_empty_input_empty_tokens (f : String) :
    lex f "" = ([], none) := rfl

/-- C6: position tracking starts at line 1 column 1; consuming a newline
resets column to 1 and increments line, consuming any other codepoint
increments column by 1; positions are monotonically non-decreasing under
consumption (lexicographically by line then column); every `Pos` in an
emitted token span has line ≥ 1 and column ≥ 1; and for consecutive tokens
the first's end is ≤ the second's start. -/
theorem c6_position_tracking (f s : String) :
    (Lexer.new f s).chars.pos = { column := 1, line := 1 }
    ∧ (∀ (p : Pos) (c : Char) (rest : List Char),
        CharsPos.next { chars := c :: rest, pos := p } =
          (some c,
            { chars := rest,
              pos := if c = '\n' then { column := 1, line := p.line + 1 }
                     else { column := p.column + 1, line := p.line } }))
    ∧ (∀ cp : CharsPos, posLe cp.pos ((cp.next).2.pos))
    ∧ (∀ t ∈ (lex f s).1, pos_wf t.span.start ∧ pos_wf t.span.«end»)
    ∧ List.Chain' (fun a b => posLe a.span.«end» b.span.start) (lex f s).1 := by
  refine ⟨rfl, fun p c rest => rfl, ?_, ?_, ?_⟩
  · intro cp
    rcases cp with ⟨cs, p⟩
    cases cs with
    | nil => exact posLe_refl p
    | cons c rest => exact posLe_stepPos p c
  · intro t ht
    have h := ((run_spec (Lexer.new f s)).2.1 t ht).2.2
    exact h ⟨le_refl 1, le_refl 1⟩
  · exact (run_spec (Lexer.new f s)).2.2

/-- C6 witness: the universal claims of `c6_position_tracking` instantiated
at filename `<test>`, input "0", and its single emitted token. -/
theorem c6_position_tracking_witness :
    pos_wf { column := 1, line := 1 } ∧ pos_wf { column := 2, line := 1 } := by
  have h := (c6_position_tracking "<test>" "0").2.2.2.1
  exact h { val := TokenKind.Int 0,
            span := { filename := "<test>", start := { column := 1, line := 1 },
                      «end» := { column := 2, line := 1 } } }
    (List.mem_singleton_self _)

/-- C7: lexing any input terminates (it is a total function of the input) and
the emitted token sequence is finite, of length at most the number of
codepoints of the input. -/
theorem c7_token_count_bounded (f s : String) :
    ((lex f s).1).length ≤ s.length :=
  (run_spec (Lexer.new f s)).1

/-- C8: lexing is deterministic: any two runs of the lexing pass over the
same filename and source text (any two derivations of the big-step relation
from the same fresh lexer) produce identical outcomes — same token kinds,
values, spans, and the same final panic status. -/
theorem c8_lexing_deterministic (f s : String)
    (out1 out2 : List Token × Option PanicReason)
    (h1 : LexRun (Lexer.new f s) out1) (h2 : LexRun (Lexer.new f s) out2) :
    out1 = out2 :=
  LexRun_deterministic h1 h2

/-- C8 witness: two derivations over filename `<test>` and source "0" agree. -/
theorem c8_lexing_deterministic_witness :
    (([{ val := TokenKind.Int 0,
         span := { filename := "<test>", start := { column := 1, line := 1 },
                   «end» := { column := 2, line := 1 } } }], none) :
      List Token × Option PanicReason) = (Lexer.new "<test>" "0").run :=
  c8_lexing_deterministic "<test>" "0" _ _ (LexRun_run _) (LexRun_run _)

/-- C9: `peek()` returns the next codepoint (or none at end of input) without
consuming it: the value is the head of the remaining stream — exactly what an
actual advance would consume — while the lexer handed back is unchanged, so
the subsequently emitted token sequence equals the one without the call. -/
theorem c9_peek_does_not_consume (lx : Lexer) :
    (lx.peek_call).1 = lx.chars.chars.head?
    ∧ (lx.peek_call).1 = (lx.chars.next).1
    ∧ (lx.peek_call).2 = lx
    ∧ ((lx.peek_call).2).run = lx.run
    ∧ (lx.peek_call).1 = lx.peek := by
  refine ⟨?_, ?_, rfl, rfl, rfl⟩ <;>
  · rcases lx with ⟨fn, ⟨cs, p⟩⟩
    cases cs <;> rfl

/-- C10 counterexample: the claim asserts that every input beginning with a
decimal digit yields a single `Int` token valued at the decimal parse of the
whole digit run; at the input `99999999999999999999` (out of `i64` range) the
code instead emits no token and panics in the parse unwrap. -/
theorem c10_counterexample_overflow :
    lex "<test>" "99999999999999999999" = ([], some PanicReason.int_parse_unwrap) := rfl

/-- C10 (amended): for every input beginning with a decimal digit whose
leading digit run denotes a value within the `i64` range, `lex_int` (reached
via the lexer's dispatch) consumes the entire contiguous digit run — the
remaining stream is exactly the input with the full run dropped — and emits a
single `Int` token whose value is the decimal parse of the whole run (leading
zeros included), with span starting at the run's first digit and ending one
column past its last digit. -/
theorem c10_lex_int_maximal_munch (f s : String)
    (hne : s.toList.takeWhile char_is_digit10 ≠ [])
    (hrange : digits_to_nat (s.toList.takeWhile char_is_digit10) ≤ i64_max) :
    (Lexer.new f s).next =
      .tok
        { val := TokenKind.Int (digits_to_nat (s.toList.takeWhile char_is_digit10) : Int),
          span := { filename := f,
                    start := { column := 1, line := 1 },
                    «end» := { column := 1 + (s.toList.takeWhile char_is_digit10).length,
                               line := 1 } } }
        { filename := f,
          chars := { chars := s.toList.dropWhile char_is_digit10,
                     pos := { column := 1 + (s.toList.takeWhile char_is_digit10).length,
                              line := 1 } } } := by
  cases hcs : s.toList with
  | nil => rw [hcs] at hne; simp at hne
  | cons c rest =>
    rw [hcs] at hne hrange
    have hc : char_is_digit10 c = true := by
      by_contra hcc
      rw [List.takeWhile_cons] at hne
      simp [hcc] at hne
    have hlx : Lexer.new f s =
        { filename := f, chars := { chars := c :: rest, pos := { column := 1, line := 1 } } } := by
      unfold Lexer.new CharsPos.new
      rw [hcs]
    rw [hlx]
    unfold Lexer.next Lexer.peek CharsPos.clone CharsPos.next
    simp only [hc, if_pos]
    unfold Lexer.lex_int CharsPos.take_while_ref
    rw [take_while_pos_eq char_is_digit10 (by decide) (c :: rest) { column := 1, line := 1 }]
    have hpe : parse_i64 ((c :: rest).takeWhile char_is_digit10) =
        some ((digits_to_nat ((c :: rest).takeWhile char_is_digit10) : Nat) : Int) := by
      unfold parse_i64
      rw [if_neg (by simpa using hne), if_pos hrange]
    dsimp only
    rw [hpe]
    rfl

/-- C10 witness: the amended statement at filename `<test>` and input "007",
whose whole run parses (leading zeros included) to `Int(7)` with span from
1:1 to 1:4 and nothing left to consume. -/
theorem c10_lex_int_maximal_munch_witness :
    (Lexer.new "<test>" "007").next =
      .tok
        { val := TokenKind.Int 7,
          span := { filename := "<test>",
                    start := { column := 1, line := 1 },
                    «end» := { column := 4, line := 1 } } }
        { filename := "<test>",
          chars := { chars := [], pos := { column := 4, line := 1 } } } :=
  c10_lex_int_maximal_munch "<test>" "007" (by decide) (by decide)

end Nixrs
